import Mathlib

/-!
Shallow embedding of the WhatsApp Analyzer core (src/App.js): the date
resolver (parseDate), the upload normalization step (the complete callback
of handleFileUpload) and the statistics aggregation (calculateStats),
together with theorems settling the specification claims.

Modelling conventions:
* JavaScript numbers occurring here are integral except for NaN, so they
  are modelled as `JSNum := Option Int` with `none` standing for NaN.
* A JS `Date` value is modelled by its millisecond epoch value (`JSNum`,
  `none` for an Invalid Date).  The calendar arithmetic performed by
  `new Date(y, m, d, h, min)` is implemented on the proleptic Gregorian
  calendar in UTC; the code does no timezone handling (spec section 4.1:
  "all arithmetic is local/naive").
* Regex character classes (`\s`, `\p{L}`, `\p{N}`) and `toLowerCase` are
  modelled by the ASCII predicates `Char.isWhitespace`, `Char.isAlpha`,
  `Char.isDigit` and `Char.toLower`; every concrete input appearing in the
  claims is ASCII.
* `Array.prototype.sort` (stable since ES2019) is modelled by the stable
  insertion sort `sortStable`.  For a consistent comparator this agrees
  with every conforming implementation; for an inconsistent comparator
  (one that can return NaN) ECMAScript leaves the result implementation
  defined, and the theorems below assume consistency where order matters.
* Plain JS objects used as counters keep their string keys in insertion
  order (integer-like keys would be enumerated first, but no key reached
  by a claim is integer-like), so they are modelled as association lists
  in insertion order.
* `parseInt` is modelled with radix 10 throughout; the code calls it once
  without an explicit radix (line 115) on the same decimal strings.
-/

namespace WApp

/-- JavaScript number restricted to the integral values arising in the
code; `none` models NaN. -/
abbrev JSNum := Option Int

/-- `n < a` for the JS comparison `parseInt(p) > n`: false when NaN. -/
def jsGTn (a : JSNum) (n : Int) : Bool :=
  match a with
  | some x => decide (n < x)
  | none => false

/-- `a < n` for the JS comparison `year < 100`: false when NaN. -/
def jsLTn (a : JSNum) (n : Int) : Bool :=
  match a with
  | some x => decide (x < n)
  | none => false

/-- Subtraction by a constant, propagating NaN. -/
def jsSubI (a : JSNum) (n : Int) : JSNum := a.map (fun x => x - n)

/-- Addition of a constant, propagating NaN. -/
def jsAddI (a : JSNum) (n : Int) : JSNum := a.map (fun x => x + n)

/-- The non-positivity of the numeric sort comparator `(a, b) => a - b`:
`jsLE a b = true` means the comparator does not require swapping `a`
before `b`.  A NaN comparator value is treated by the engine as 0 (keep
order), hence `true` in the NaN cases. -/
def jsLE (a b : JSNum) : Bool :=
  match a, b with
  | some x, some y => decide (x ≤ y)
  | _, _ => true

/-- Value of a list of decimal digit characters. -/
def digitsVal (ds : List Char) : Nat :=
  ds.foldl (fun n c => n * 10 + (c.toNat - ('0').toNat)) 0

/-- JS `parseInt(s, 10)`: skip leading whitespace, optional sign, longest
prefix of decimal digits; NaN (`none`) if that prefix is empty. -/
def parseIntJS (s : String) : JSNum :=
  let cs := s.toList.dropWhile Char.isWhitespace
  let signed : List Char × Bool :=
    match cs with
    | '-' :: rest => (rest, true)
    | '+' :: rest => (rest, false)
    | _ => (cs, false)
  let ds := signed.1.takeWhile Char.isDigit
  if ds.isEmpty then none
  else if signed.2 then some (-(digitsVal ds : Int)) else some ((digitsVal ds : Int))

/-- Helper for `splitOnChar`; `acc` holds the current field reversed. -/
def splitCharAux (sep : Char) : List Char → List Char → List String
  | [], acc => [String.mk acc.reverse]
  | c :: rest, acc =>
    if c = sep then String.mk acc.reverse :: splitCharAux sep rest []
    else splitCharAux sep rest (c :: acc)

/-- JS `s.split(sep)` for a single-character separator (keeps empty
fields, `"".split(sep) = [""]`). -/
def splitOnChar (sep : Char) (s : String) : List String :=
  splitCharAux sep s.toList []

mutual
/-- Helper for `jsSplitWS`: `acc` holds the current field reversed. -/
def splitWSAux : List Char → List Char → List String
  | [], acc => [String.mk acc.reverse]
  | c :: rest, acc =>
    if c.isWhitespace then String.mk acc.reverse :: splitWSSkip rest
    else splitWSAux rest (c :: acc)

/-- Helper for `jsSplitWS`: consume the rest of a whitespace run. -/
def splitWSSkip : List Char → List String
  | [] => [String.mk []]
  | c :: rest => if c.isWhitespace then splitWSSkip rest else splitWSAux rest [c]
end

/-- JS `s.split(/\s+/)`: a maximal whitespace run is one separator;
leading and trailing runs produce empty fields, exactly as in JS. -/
def jsSplitWS (s : String) : List String :=
  splitWSAux s.toList []

/-! ### Calendar arithmetic for `new Date(y, m, d, h, min)` -/

/-- Days from the civil epoch 1970-01-01 for year `y`, month `m` (1-12)
and day `d` (proleptic Gregorian). -/
def daysFromCivil (y m d : Int) : Int :=
  let y' := if m ≤ 2 then y - 1 else y
  let era := Int.fdiv y' 400
  let yoe := y' - era * 400
  let mp := Int.emod (m + 9) 12
  let doy := Int.fdiv (153 * mp + 2) 5 + d - 1
  let doe := yoe * 365 + Int.fdiv yoe 4 - Int.fdiv yoe 100 + doy
  era * 146097 + doe - 719468

/-- Inverse of `daysFromCivil`: (year, month 1-12, day). -/
def civilFromDays (z : Int) : Int × Int × Int :=
  let z' := z + 719468
  let era := Int.fdiv z' 146097
  let doe := z' - era * 146097
  let yoe := Int.fdiv (doe - Int.fdiv doe 1460 + Int.fdiv doe 36524 - Int.fdiv doe 146096) 365
  let y := yoe + era * 400
  let doy := doe - (365 * yoe + Int.fdiv yoe 4 - Int.fdiv yoe 100)
  let mp := Int.fdiv (5 * doy + 2) 153
  let d := doy - Int.fdiv (153 * mp + 2) 5 + 1
  let m := if mp < 10 then mp + 3 else mp - 9
  (if m ≤ 2 then y + 1 else y, m, d)

/-- ECMAScript MakeFullYear: a year argument in 0..99 means 1900+year. -/
def makeFullYear (y : Int) : Int :=
  if 0 ≤ y ∧ y ≤ 99 then 1900 + y else y

/-- Millisecond value of `new Date(y, m, d, h, min)` (month 0-based, any
integer: overflow rolls into the year per ECMAScript MakeDay); `none`
(Invalid Date) as soon as one component is NaN. -/
def newDateMillis (y m d h mi : JSNum) : JSNum :=
  match y, m, d, h, mi with
  | some y, some m, some d, some h, some mi =>
    let fy := makeFullYear y
    let ym := fy + Int.fdiv m 12
    let mn := Int.emod m 12
    some ((daysFromCivil ym (mn + 1) 1 + (d - 1)) * 86400000 + h * 3600000 + mi * 60000)
  | _, _, _, _, _ => none

/-! ### The date resolver `parseDate` (src/App.js lines 95-143) -/

/-- JS `s.includes(c)` for a single character. -/
def strContains (s : String) (c : Char) : Bool :=
  s.toList.any (fun x => x = c)

/-- Lines 100-106: pick the separator.  `none` when the string contains
neither `/` nor `-` (the fallback-to-now case). -/
def dateSplit (s : String) : Option (List String) :=
  if strContains s '/' then some (splitOnChar '/' s)
  else if strContains s '-' then some (splitOnChar '-' s)
  else none

/-- Lines 112-131: resolve (day, 0-based month, year) from the three date
components.  The branch on `parseInt(dateParts[0]) > 12` decides whether
the two-digit-year normalization (+2000) is reachable: it is applied only
in the else branch. -/
def resolveDMY (ps : List String) : JSNum × JSNum × JSNum :=
  let p0 := parseIntJS (ps.getD 0 (""))
  let p1 := parseIntJS (ps.getD 1 (""))
  let p2 := parseIntJS (ps.getD 2 (""))
  if jsGTn p0 12 then
    (p0, jsSubI p1 1, p2)
  else
    (p0, jsSubI p1 1, if jsLTn p2 100 then jsAddI p2 2000 else p2)

/-- Lines 133-140: split `timeStr` on `:`; with at least two components
take `parseInt` of the first two (the seconds component is never read),
otherwise hours = 0, minutes = 0; an empty `timeStr` is falsy and also
yields (0, 0). -/
def parseTimeParts (timeStr : String) : JSNum × JSNum :=
  if timeStr = "" then (some 0, some 0)
  else
    let tp := splitOnChar ':' timeStr
    if tp.length ≥ 2 then (parseIntJS (tp.getD 0 ("")), parseIntJS (tp.getD 1 ("")))
    else (some 0, some 0)

/-- Result of `parseDate`: JS `null` or a `Date` value. -/
inductive PDResult where
  | null : PDResult
  | js (ms : JSNum) : PDResult
deriving DecidableEq, Repr

/-- `parseDate(dateStr, timeStr)` (lines 95-143).  `nowMs` is the ambient
clock read by `new Date()` in the fallback branches.  An empty `dateStr`
is falsy and returns `null`; a string with no `/` or `-`, or one that does
not split into exactly three components, returns the current time. -/
def parseDate (dateStr timeStr : String) (nowMs : Int) : PDResult :=
  if dateStr = "" then .null
  else
    match dateSplit dateStr with
    | none => .js (some nowMs)
    | some ps =>
      if ps.length ≠ 3 then .js (some nowMs)
      else
        let dmy := resolveDMY ps
        let tm := parseTimeParts timeStr
        .js (newDateMillis dmy.2.2 dmy.2.1 dmy.1 tm.1 tm.2)

/-- `new Date(parseDate(row.date, row.time))` (line 65): `new Date(null)`
coerces `null` to 0 (the epoch); a `Date` argument copies its time value
(an Invalid Date stays invalid). -/
def resolveTimestamp (dateStr timeStr : String) (nowMs : Int) : JSNum :=
  match parseDate dateStr timeStr nowMs with
  | .null => some 0
  | .js v => v

/-! ### Rows and normalization (handleFileUpload, lines 46-74) -/

/-- One CSV row as delivered by the parsing library (the required columns;
the raw `datetime` column is immediately overwritten by the code and is
not modelled as a field). -/
structure Row where
  date : String
  time : String
  hour : String
  weekday : String
  sender : String
  message : String
deriving DecidableEq, Repr

/-- A normalized row: the raw fields plus the resolved timestamp stored
in `datetime`. -/
structure NRow extends Row where
  datetime : JSNum
deriving DecidableEq, Repr

/-- Line 63-65: spread the row and set `datetime`. -/
def addTimestamp (nowMs : Int) (r : Row) : NRow :=
  { r with datetime := resolveTimestamp r.date r.time nowMs }

/-! ### Stable sort (model of `Array.prototype.sort`) -/

/-- Insert `x` before the first element `y` with `le x y`; `le a b` is
the non-positivity of the JS comparator on `(a, b)`. -/
def insertSorted (le : α → α → Bool) (x : α) : List α → List α
  | [] => [x]
  | y :: ys => if le x y then x :: y :: ys else y :: insertSorted le x ys

/-- Stable insertion sort: elements are inserted from the right, so an
earlier element lands before any equal later element. -/
def sortStable (le : α → α → Bool) : List α → List α
  | [] => []
  | x :: xs => insertSorted le x (sortStable le xs)

/-- The seven required CSV columns (line 52). -/
def requiredColumns : List String :=
  [("datetime"), ("date"), ("time"), ("hour"), ("weekday"), ("sender"), ("message")]

/-- Line 55: the required columns absent from the header. -/
def missingColumns (headers : List String) : List String :=
  requiredColumns.filter (fun c => !headers.contains c)

/-- Comparator for line 66: `(a, b) => a.datetime - b.datetime`. -/
def tsLE (a b : NRow) : Bool := jsLE a.datetime b.datetime

/-- The parse-and-sort step of the complete callback (lines 51-66):
validate the header, then map each row through the date resolver and sort
by the resolved timestamp. -/
def normalize (headers : List String) (rows : List Row) (nowMs : Int) :
    Except (List String) (List NRow) :=
  let missing := missingColumns headers
  if missing.length > 0 then .error missing
  else .ok (sortStable tsLE (rows.map (addTimestamp nowMs)))

/-! ### Counter objects as association lists -/

/-- `if (!obj[k]) obj[k] = 0; obj[k]++` on a counter object: bump the
entry in place, or append a fresh entry (JS objects keep string keys in
insertion order). -/
def bumpAssoc : List (String × Nat) → String → List (String × Nat)
  | [], k => [(k, 1)]
  | (k', n) :: rest, k =>
    if k' = k then (k', n + 1) :: rest else (k', n) :: bumpAssoc rest k

/-- Count looked up in a counter object, `obj[k]` (0 when the key is
absent; keys are unique, so the first match is the value). -/
def lookupCount : List (String × Nat) → String → Nat
  | [], _ => 0
  | e :: rest, k => if e.1 = k then e.2 else lookupCount rest k

/-- JS `Set.prototype.add`: insertion order, first occurrence kept. -/
def setAdd (l : List String) (x : String) : List String :=
  if x ∈ l then l else l ++ [x]

/-- `[...new Set(ks)]`: distinct values in first-occurrence order. -/
def firstDedup (ks : List String) : List String :=
  ks.foldl setAdd []

/-! ### calculateStats (src/App.js lines 146-344) -/

/-- Line 150: `[...new Set(data.map(row => row.sender))]`. -/
def uniqueSenders (data : List NRow) : List String :=
  firstDedup (data.map (fun r => r.sender))

/-- Lines 153-156: `data.filter(row => row.sender === sender).length`. -/
def messageCountBySender (data : List NRow) (sender : String) : Nat :=
  (data.filter (fun r => r.sender = sender)).length

/-- Lines 162-165: whitespace-delimited tokens of positive length in one
message (an empty message contributes nothing). -/
def wordCountOfMessage (message : String) : Nat :=
  if message = "" then 0
  else ((jsSplitWS message).filter (fun w => w.length > 0)).length

/-- Lines 159-167: total word count of a sender's messages. -/
def wordCountBySender (data : List NRow) (sender : String) : Nat :=
  (((data.filter (fun r => r.sender = sender)).map (fun r => r.message)).map
    wordCountOfMessage).sum

/-- The seven weekday keys of lines 170-179, in object insertion order. -/
def weekdayNames : List String :=
  [("Sunday"), ("Monday"), ("Tuesday"), ("Wednesday"), ("Thursday"), ("Friday"), ("Saturday")]

/-- Lines 181-187: one row's effect on the per-weekday message counts and
per-weekday date sets (`hasOwnProperty` = membership in the seven keys). -/
def weekdayStep (acc : (String → Nat) × (String → List String)) (r : NRow) :
    (String → Nat) × (String → List String) :=
  if r.weekday ∈ weekdayNames then
    (Function.update acc.1 r.weekday (acc.1 r.weekday + 1),
     Function.update acc.2 r.weekday (setAdd (acc.2 r.weekday) r.date))
  else acc

/-- The `messagesByWeekday` / `daysByWeekday` accumulators after the
forEach of lines 181-187. -/
def weekdayFold (data : List NRow) : (String → Nat) × (String → List String) :=
  data.foldl weekdayStep (fun _ => 0, fun _ => [])

/-- Lines 190-194: average messages per weekday.  JS float division is
modelled as exact rational division (numerator and denominator are small
integers). -/
def avgMessagesByWeekday (data : List NRow) (day : String) : ℚ :=
  let acc := weekdayFold data
  let daysCount := (acc.2 day).length
  if daysCount > 0 then (acc.1 day : ℚ) / (daysCount : ℚ) else 0

/-- `parseFloat(avg.toFixed(1))` (line 318): rounding to one decimal
digit, ties away from zero (all averages are nonnegative).  This models
the decimal rounding of `toFixed` on the exact rational value; the binary
double taken by the code agrees except on values within one double ulp of
a `.x5` boundary, which no claim exercises. -/
def roundTo1 (q : ℚ) : ℚ :=
  (⌊q * 10 + 1 / 2⌋ : ℚ) / 10

/-- Lines 315-319: `weekdayData`, one record per weekday key. -/
def weekdayDataOf (data : List NRow) : List (String × ℚ) :=
  weekdayNames.map (fun day => (day, roundTo1 (avgMessagesByWeekday data day)))

/-- Lines 197-203: 24 hour buckets from the supplied `hour` field; NaN or
out-of-range values are excluded. -/
def messagesByHour (data : List NRow) : List Nat :=
  data.foldl
    (fun acc r =>
      match parseIntJS r.hour with
      | some h => if 0 ≤ h ∧ h < 24 then acc.set h.toNat (acc.getD h.toNat 0 + 1) else acc
      | none => acc)
    (List.replicate 24 0)

/-- Lines 321-322: `hourData` labels. -/
def hourDataOf (data : List NRow) : List (String × Nat) :=
  (messagesByHour data).enum.map (fun e => (toString e.1 ++ (":00"), e.2))

/-- Lines 206-212: message count per raw `date` string. -/
def messagesByDate (data : List NRow) : List (String × Nat) :=
  data.foldl (fun acc r => bumpAssoc acc r.date) []

/-- Lines 215-216: the reduce for the most active day. -/
def mostActiveDayOf (data : List NRow) : String × Nat :=
  (messagesByDate data).foldl
    (fun mx e => if e.2 > mx.2 then e else mx) (("") , 0)

/-- `getFullYear` of a millisecond value. -/
def jsGetFullYear (ms : Int) : Int :=
  (civilFromDays (Int.fdiv ms 86400000)).1

/-- `getMonth` (0-based) of a millisecond value. -/
def jsGetMonth (ms : Int) : Int :=
  (civilFromDays (Int.fdiv ms 86400000)).2.1 - 1

/-- `String(n).padStart(2, '0')`. -/
def pad2 (s : String) : String :=
  if s.length < 2 then ("0") ++ s else s

/-- Line 224: the `YYYY-MM` month key of a resolved timestamp; an Invalid
Date stringifies its NaN fields. -/
def monthKeyOf (dt : JSNum) : String :=
  match dt with
  | some ms => toString (jsGetFullYear ms) ++ ("-") ++ pad2 (toString (jsGetMonth ms + 1))
  | none => ("NaN-NaN")

/-- Lines 219-230: month buckets (the `if (!row.datetime)` guard never
fires: every row carries a Date object, which is truthy). -/
def messagesByMonth (data : List NRow) : List (String × Nat) :=
  data.foldl (fun acc r => bumpAssoc acc (monthKeyOf r.datetime)) []

/-- Lines 311-313: months sorted by `localeCompare`, modelled as the
lexicographic string order. -/
def timelineDataOf (data : List NRow) : List (String × Nat) :=
  sortStable (fun a b => decide (a.1 ≤ b.1)) (messagesByMonth data)

/-- One entry of `dailyTimelineData` (lines 233-244). -/
structure DailyEntry where
  date : String
  count : Nat
  sortDate : JSNum
deriving DecidableEq, Repr

/-- Lines 236-243: re-parse a raw date key as day/month/year for sorting;
a key that does not split on `/` into three parts falls back to
`new Date(0)` (the epoch). -/
def dailySortKey (date : String) : JSNum :=
  let ps := splitOnChar '/' date
  if ps.length = 3 then
    newDateMillis (parseIntJS (ps.getD 2 (""))) (jsSubI (parseIntJS (ps.getD 1 (""))) 1)
      (parseIntJS (ps.getD 0 (""))) (some 0) (some 0)
  else some 0

/-- `arr.slice(-n)`: the last `n` elements. -/
def jsTakeLast (n : Nat) (l : List α) : List α :=
  l.drop (l.length - n)

/-- Comparator of line 245: `(a, b) => a.sortDate - b.sortDate`. -/
def dailyLE (a b : DailyEntry) : Bool := jsLE a.sortDate b.sortDate

/-- The map step of lines 234-244: one entry per date bucket, with the
re-parsed sort key. -/
def dailyEntries (data : List NRow) : List DailyEntry :=
  (messagesByDate data).map (fun e => ⟨e.1, e.2, dailySortKey e.1⟩)

/-- Lines 233-246: the daily timeline—date buckets with sort keys, sorted
by sort key, truncated to the last 30. -/
def dailyTimelineDataOf (data : List NRow) : List DailyEntry :=
  jsTakeLast 30 (sortStable dailyLE (dailyEntries data))

/-- Lines 253-257 and 278-282: lower-case the message, strip characters
that are not letters, digits or whitespace, split on whitespace runs and
keep the tokens longer than `minLen`. -/
def tokensOf (message : String) (minLen : Nat) : List String :=
  ((jsSplitWS (String.mk ((message.toList.map Char.toLower).filter
      (fun c => c.isAlpha || c.isDigit || c.isWhitespace)))).filter
    (fun w => w.length > minLen))

/-- One row's effect on the word counts (lines 250-265). -/
def wordStep (acc : List (String × Nat)) (r : NRow) : List (String × Nat) :=
  if r.message = "" then acc
  else (tokensOf r.message 2).foldl bumpAssoc acc

/-- Lines 249-265: word counts over all messages (tokens of length > 2;
empty messages are skipped). -/
def wordCounts (data : List NRow) : List (String × Nat) :=
  data.foldl wordStep []

/-- Descending-count comparator of lines 269 and 306:
`(a, b) => b[1] - a[1]` (counts are natural numbers, never NaN). -/
def countDescLE (a b : String × Nat) : Bool := decide (b.2 ≤ a.2)

/-- Lines 268-271: top 30 words by count. -/
def topWordsOf (data : List NRow) : List (String × Nat) :=
  (sortStable countDescLE (wordCounts data)).take 30

/-- Lines 285-291: the 2-token windows of a token list. -/
def windows2 : List String → List String
  | a :: b :: rest => (a ++ (" ") ++ b) :: windows2 (b :: rest)
  | _ => []

/-- Lines 294-300: the 3-token windows of a token list. -/
def windows3 : List String → List String
  | a :: b :: c :: rest => (a ++ (" ") ++ b ++ (" ") ++ c) :: windows3 (b :: c :: rest)
  | _ => []

/-- One row's effect on the phrase counts (lines 275-301): all 2-token
windows, then all 3-token windows, of the message's tokens of length > 1. -/
def phraseStep (acc : List (String × Nat)) (r : NRow) : List (String × Nat) :=
  if r.message = "" then acc
  else
    let ws := tokensOf r.message 1
    (windows3 ws).foldl bumpAssoc ((windows2 ws).foldl bumpAssoc acc)

/-- Lines 274-301: phrase counts over all messages. -/
def phraseCounts (data : List NRow) : List (String × Nat) :=
  data.foldl phraseStep []

/-- Lines 304-308: phrases occurring at least 3 times, top 30 by count. -/
def topPhrasesOf (data : List NRow) : List (String × Nat) :=
  (sortStable countDescLE ((phraseCounts data).filter (fun e => e.2 ≥ 3))).take 30

/-- Lines 324-328: per-sender records (name, messages, words). -/
def senderDataOf (data : List NRow) : List (String × Nat × Nat) :=
  (uniqueSenders data).map
    (fun s => (s, messageCountBySender data s, wordCountBySender data s))

/-- The stats object assembled at lines 331-343. -/
structure StatsBundle where
  timelineData : List (String × Nat)
  dailyTimelineData : List DailyEntry
  weekdayData : List (String × ℚ)
  hourData : List (String × Nat)
  senderData : List (String × Nat × Nat)
  topWords : List (String × Nat)
  topPhrases : List (String × Nat)
  mostActiveDay : String × Nat
deriving DecidableEq, Repr

/-- `calculateStats` (lines 146-344).  The guard of line 147 returns
early on empty input, so no bundle is produced (`none`); otherwise the
full bundle is computed and installed. -/
def calculateStats (data : List NRow) : Option StatsBundle :=
  if data.isEmpty then none
  else
    some
      { timelineData := timelineDataOf data
        dailyTimelineData := dailyTimelineDataOf data
        weekdayData := weekdayDataOf data
        hourData := hourDataOf data
        senderData := senderDataOf data
        topWords := topWordsOf data
        topPhrases := topPhrasesOf data
        mostActiveDay := mostActiveDayOf data }

/-! ### Component state around an upload -/

/-- The React state touched by the complete callback. -/
structure AppState where
  chatData : List NRow
  stats : Option StatsBundle
  error : String
  fileUploaded : Bool
  activeTab : String
deriving DecidableEq, Repr

/-- The complete callback of `Papa.parse` (lines 50-74) as a state
transition (`loading` is omitted: it ends false on every path).  On
missing columns only the error message changes; on success the dataset is
replaced and `calculateStats` installs the new bundle—which, on empty
data, leaves the previous `stats` value in place. -/
def uploadComplete (headers : List String) (rows : List Row) (nowMs : Int)
    (s : AppState) : AppState :=
  match normalize headers rows nowMs with
  | .error missing =>
    { s with error := ("CSV is missing required columns: ") ++ String.intercalate (", ") missing }
  | .ok parsed =>
    { s with
      chatData := parsed
      stats := match calculateStats parsed with
        | some b => some b
        | none => s.stats
      fileUploaded := true
      activeTab := ("chat") }

/-! ### Lemmas about the stable sort -/

theorem length_insertSorted (le : α → α → Bool) (x : α) (l : List α) :
    (insertSorted le x l).length = l.length + 1 := by
  induction l with
  | nil => rfl
  | cons y ys ih =>
    simp only [insertSorted]
    split
    · simp
    · simp [ih]

theorem length_sortStable (le : α → α → Bool) (l : List α) :
    (sortStable le l).length = l.length := by
  induction l with
  | nil => rfl
  | cons x xs ih => simp [sortStable, length_insertSorted, ih]

theorem perm_insertSorted (le : α → α → Bool) (x : α) (l : List α) :
    List.Perm (insertSorted le x l) (x :: l) := by
  induction l with
  | nil => exact List.Perm.refl _
  | cons y ys ih =>
    simp only [insertSorted]
    split
    · exact List.Perm.refl _
    · exact (ih.cons y).trans (List.Perm.swap x y ys)

theorem perm_sortStable (le : α → α → Bool) (l : List α) :
    List.Perm (sortStable le l) l := by
  induction l with
  | nil => exact List.Perm.refl _
  | cons x xs ih =>
    exact (perm_insertSorted le x (sortStable le xs)).trans (ih.cons x)

theorem mem_of_mem_sortStable {le : α → α → Bool} {l : List α} {a : α}
    (h : a ∈ sortStable le l) : a ∈ l :=
  (perm_sortStable le l).mem_iff.mp h

theorem pairwise_insertSorted (le : α → α → Bool) (x : α) (l : List α)
    (htot : ∀ b ∈ l, le x b = true ∨ le b x = true)
    (htr : ∀ b ∈ l, ∀ c ∈ l, le x b = true → le b c = true → le x c = true)
    (hp : List.Pairwise (fun a b => le a b = true) l) :
    List.Pairwise (fun a b => le a b = true) (insertSorted le x l) := by
  induction l with
  | nil => simp [insertSorted]
  | cons y ys ih =>
    rw [List.pairwise_cons] at hp
    obtain ⟨hy, hys⟩ := hp
    simp only [insertSorted]
    by_cases hxy : le x y = true
    · rw [if_pos hxy]
      refine List.Pairwise.cons ?_ (List.Pairwise.cons hy hys)
      intro z hz
      rcases List.mem_cons.mp hz with rfl | hz'
      · exact hxy
      · exact htr y (List.mem_cons_self _ _) z (List.mem_cons_of_mem _ hz') hxy (hy z hz')
    · rw [if_neg hxy]
      have hyx : le y x = true := by
        rcases htot y (List.mem_cons_self _ _) with h | h
        · exact absurd h hxy
        · exact h
      refine List.Pairwise.cons ?_ ?_
      · intro z hz
        rcases List.mem_cons.mp ((perm_insertSorted le x ys).mem_iff.mp hz) with rfl | hz'
        · exact hyx
        · exact hy z hz'
      · exact ih (fun b hb => htot b (List.mem_cons_of_mem _ hb))
          (fun b hb c hc => htr b (List.mem_cons_of_mem _ hb) c (List.mem_cons_of_mem _ hc)) hys

theorem pairwise_sortStable (le : α → α → Bool) (l : List α)
    (htot : ∀ a ∈ l, ∀ b ∈ l, le a b = true ∨ le b a = true)
    (htr : ∀ a ∈ l, ∀ b ∈ l, ∀ c ∈ l, le a b = true → le b c = true → le a c = true) :
    List.Pairwise (fun a b => le a b = true) (sortStable le l) := by
  induction l with
  | nil => simp [sortStable]
  | cons x xs ih =>
    simp only [sortStable]
    have hmem : ∀ b ∈ sortStable le xs, b ∈ xs := fun b hb => mem_of_mem_sortStable hb
    refine pairwise_insertSorted le x (sortStable le xs) ?_ ?_ ?_
    · intro b hb
      exact htot x (List.mem_cons_self _ _) b (List.mem_cons_of_mem _ (hmem b hb))
    · intro b hb c hc
      exact htr x (List.mem_cons_self _ _) b (List.mem_cons_of_mem _ (hmem b hb))
        c (List.mem_cons_of_mem _ (hmem c hc))
    · exact ih (fun a ha b hb => htot a (List.mem_cons_of_mem _ ha) b (List.mem_cons_of_mem _ hb))
        (fun a ha b hb c hc => htr a (List.mem_cons_of_mem _ ha) b (List.mem_cons_of_mem _ hb)
          c (List.mem_cons_of_mem _ hc))

theorem filter_insertSorted_neg (le : α → α → Bool) (p : α → Bool) (x : α) (l : List α)
    (hx : p x = false) :
    (insertSorted le x l).filter p = l.filter p := by
  induction l with
  | nil => simp [insertSorted, hx]
  | cons y ys ih =>
    simp only [insertSorted]
    split
    · simp [List.filter_cons, hx]
    · simp only [List.filter_cons, ih]

theorem filter_insertSorted_pos (le : α → α → Bool) (p : α → Bool) (x : α) (l : List α)
    (hx : p x = true)
    (hskip : ∀ y ∈ l, le x y = false → p y = false) :
    (insertSorted le x l).filter p = x :: l.filter p := by
  induction l with
  | nil => simp [insertSorted, hx]
  | cons y ys ih =>
    simp only [insertSorted]
    by_cases hxy : le x y = true
    · rw [if_pos hxy]
      simp [List.filter_cons, hx]
    · rw [if_neg hxy]
      have hxyf : le x y = false := by
        revert hxy
        cases le x y <;> simp
      have hpy : p y = false := hskip y (List.mem_cons_self _ _) hxyf
      simp only [List.filter_cons, hpy, if_neg Bool.false_ne_true,
        ih (fun z hz h => hskip z (List.mem_cons_of_mem _ hz) h)]

theorem filter_sortStable (le : α → α → Bool) (p : α → Bool) (l : List α)
    (hpp : ∀ a ∈ l, ∀ b ∈ l, p a = true → p b = true → le a b = true) :
    (sortStable le l).filter p = l.filter p := by
  induction l with
  | nil => rfl
  | cons x xs ih =>
    simp only [sortStable]
    have hrest := ih (fun a ha b hb => hpp a (List.mem_cons_of_mem _ ha) b (List.mem_cons_of_mem _ hb))
    cases hx : p x
    · rw [filter_insertSorted_neg le p x _ hx, hrest]
      simp [List.filter_cons, hx]
    · rw [filter_insertSorted_pos le p x _ hx ?_, hrest]
      · simp [List.filter_cons, hx]
      · intro y hy hle
        have hyx : y ∈ xs := mem_of_mem_sortStable hy
        by_contra hpy
        have hpy' : p y = true := by
          revert hpy
          cases p y <;> simp
        have := hpp x (List.mem_cons_self _ _) y (List.mem_cons_of_mem _ hyx) hx hpy'
        rw [this] at hle
        cases hle

/-! ### Lemmas about counter objects -/

/-- The keys of a counter object. -/
def keysOf (l : List (String × Nat)) : List String := l.map Prod.fst

theorem bumpAssoc_cons_pos (ek : String) (ev : Nat) (rest : List (String × Nat)) :
    bumpAssoc ((ek, ev) :: rest) ek = (ek, ev + 1) :: rest := by
  simp [bumpAssoc]

theorem bumpAssoc_cons_neg (ek : String) (ev : Nat) (rest : List (String × Nat))
    (k : String) (hk : ek ≠ k) :
    bumpAssoc ((ek, ev) :: rest) k = (ek, ev) :: bumpAssoc rest k := by
  simp [bumpAssoc, hk]

theorem lookupCount_bumpAssoc (l : List (String × Nat)) (k k' : String) :
    lookupCount (bumpAssoc l k) k' = lookupCount l k' + (if k' = k then 1 else 0) := by
  induction l with
  | nil =>
    by_cases h : k' = k
    · subst h
      simp [bumpAssoc, lookupCount]
    · simp [bumpAssoc, lookupCount, h, Ne.symm h]
  | cons e rest ih =>
    obtain ⟨ek, ev⟩ := e
    by_cases hk : ek = k
    · subst hk
      rw [bumpAssoc_cons_pos]
      by_cases h' : ek = k'
      · subst h'
        simp [lookupCount]
      · simp [lookupCount, h', Ne.symm h']
    · rw [bumpAssoc_cons_neg ek ev rest k hk]
      by_cases h' : ek = k'
      · subst h'
        simp [lookupCount, hk]
      · simp [lookupCount, h', ih]

theorem mem_keysOf_bumpAssoc (l : List (String × Nat)) (k k' : String) :
    k' ∈ keysOf (bumpAssoc l k) ↔ k' ∈ keysOf l ∨ k' = k := by
  induction l with
  | nil => simp [bumpAssoc, keysOf]
  | cons e rest ih =>
    obtain ⟨ek, ev⟩ := e
    by_cases hk : ek = k
    · subst hk
      rw [bumpAssoc_cons_pos]
      simp only [keysOf, List.map_cons, List.mem_cons]
      tauto
    · rw [bumpAssoc_cons_neg ek ev rest k hk]
      simp only [keysOf, List.map_cons, List.mem_cons] at ih ⊢
      rw [ih]
      tauto

theorem nodup_keysOf_bumpAssoc (l : List (String × Nat)) (k : String)
    (h : (keysOf l).Nodup) : (keysOf (bumpAssoc l k)).Nodup := by
  induction l with
  | nil => simp [bumpAssoc, keysOf]
  | cons e rest ih =>
    obtain ⟨ek, ev⟩ := e
    simp only [keysOf, List.map_cons, List.nodup_cons] at h
    obtain ⟨hek, hrest⟩ := h
    by_cases hk : ek = k
    · subst hk
      rw [bumpAssoc_cons_pos]
      simp only [keysOf, List.map_cons, List.nodup_cons]
      exact ⟨hek, hrest⟩
    · rw [bumpAssoc_cons_neg ek ev rest k hk]
      simp only [keysOf, List.map_cons, List.nodup_cons]
      refine ⟨?_, ih hrest⟩
      intro hmem
      rcases (mem_keysOf_bumpAssoc rest k ek).mp hmem with h' | h'
      · exact hek h'
      · exact hk h'

theorem lookupCount_of_mem {l : List (String × Nat)} {k : String} {v : Nat}
    (hnd : (keysOf l).Nodup) (hm : (k, v) ∈ l) : lookupCount l k = v := by
  induction l with
  | nil => cases hm
  | cons e rest ih =>
    obtain ⟨ek, ev⟩ := e
    simp only [keysOf, List.map_cons, List.nodup_cons] at hnd
    obtain ⟨hek, hrest⟩ := hnd
    rcases List.mem_cons.mp hm with h | h
    · injection h with h1 h2
      subst h1
      subst h2
      simp [lookupCount]
    · have hkne : ek ≠ k := by
        intro heq
        subst heq
        exact hek (List.mem_map_of_mem Prod.fst h)
      simp only [lookupCount, if_neg hkne]
      exact ih hrest h

theorem exists_mem_of_lookupCount_pos {l : List (String × Nat)} {k : String}
    (h : 0 < lookupCount l k) : ∃ v, (k, v) ∈ l ∧ v = lookupCount l k := by
  induction l with
  | nil => simp [lookupCount] at h
  | cons e rest ih =>
    obtain ⟨ek, ev⟩ := e
    by_cases hk : ek = k
    · subst hk
      refine ⟨ev, List.mem_cons_self _ _, ?_⟩
      simp [lookupCount]
    · simp only [lookupCount, if_neg hk] at h
      obtain ⟨v, hv, hveq⟩ := ih h
      refine ⟨v, List.mem_cons_of_mem _ hv, ?_⟩
      simp only [lookupCount, if_neg hk]
      exact hveq

theorem lookupCount_foldl_bump (ks : List String) (acc : List (String × Nat)) (k : String) :
    lookupCount (ks.foldl bumpAssoc acc) k =
      lookupCount acc k + ks.countP (fun x => x = k) := by
  induction ks generalizing acc with
  | nil => simp
  | cons k0 ks ih =>
    simp only [List.foldl_cons, ih, lookupCount_bumpAssoc, List.countP_cons,
      decide_eq_true_eq]
    by_cases h : k0 = k
    · subst h
      simp only [if_pos rfl]
      omega
    · rw [if_neg (fun h' => h h'.symm), if_neg h]
      omega

theorem mem_keysOf_foldl_bump (ks : List String) (acc : List (String × Nat)) (k : String) :
    k ∈ keysOf (ks.foldl bumpAssoc acc) ↔ k ∈ keysOf acc ∨ k ∈ ks := by
  induction ks generalizing acc with
  | nil => simp
  | cons k0 ks ih =>
    simp only [List.foldl_cons, ih, mem_keysOf_bumpAssoc, List.mem_cons]
    tauto

theorem nodup_keysOf_foldl_bump (ks : List String) (acc : List (String × Nat))
    (h : (keysOf acc).Nodup) : (keysOf (ks.foldl bumpAssoc acc)).Nodup := by
  induction ks generalizing acc with
  | nil => exact h
  | cons k0 ks ih => exact ih _ (nodup_keysOf_bumpAssoc acc k0 h)

/-! ### Lemmas about JS Sets -/

theorem mem_setAdd (l : List String) (y x : String) :
    x ∈ setAdd l y ↔ x ∈ l ∨ x = y := by
  simp only [setAdd]
  split
  · rename_i hy
    constructor
    · exact Or.inl
    · intro h
      rcases h with h | rfl
      · exact h
      · exact hy
  · simp

theorem nodup_setAdd (l : List String) (y : String) (h : l.Nodup) :
    (setAdd l y).Nodup := by
  simp only [setAdd]
  split
  · exact h
  · rename_i hy
    simp [List.nodup_append, h, hy]

theorem mem_foldl_setAdd (ks : List String) (acc : List String) (x : String) :
    x ∈ ks.foldl setAdd acc ↔ x ∈ acc ∨ x ∈ ks := by
  induction ks generalizing acc with
  | nil => simp
  | cons k0 ks ih =>
    simp only [List.foldl_cons, ih, mem_setAdd, List.mem_cons]
    tauto

theorem nodup_foldl_setAdd (ks : List String) (acc : List String) (h : acc.Nodup) :
    (ks.foldl setAdd acc).Nodup := by
  induction ks generalizing acc with
  | nil => exact h
  | cons k0 ks ih => exact ih _ (nodup_setAdd acc k0 h)

theorem mem_firstDedup (ks : List String) (x : String) :
    x ∈ firstDedup ks ↔ x ∈ ks := by
  simp [firstDedup, mem_foldl_setAdd]

theorem nodup_firstDedup (ks : List String) : (firstDedup ks).Nodup :=
  nodup_foldl_setAdd ks [] List.nodup_nil

/-! ### Characterizations of the aggregation metrics -/

theorem weekdayFold_count (data : List NRow)
    (init : (String → Nat) × (String → List String)) (d : String) (hd : d ∈ weekdayNames) :
    (List.foldl weekdayStep init data).1 d =
      init.1 d + (data.filter (fun r => r.weekday = d)).length := by
  induction data generalizing init with
  | nil => simp
  | cons r rest ih =>
    rw [List.foldl_cons, ih]
    have hstep : (weekdayStep init r).1 d = init.1 d + (if r.weekday = d then 1 else 0) := by
      simp only [weekdayStep]
      by_cases hm : r.weekday ∈ weekdayNames
      · rw [if_pos hm]
        by_cases hrd : r.weekday = d
        · subst hrd
          simp
        · simp [Function.update_noteq (Ne.symm hrd), hrd]
      · rw [if_neg hm]
        have hrd : r.weekday ≠ d := fun h => hm (h ▸ hd)
        simp [hrd]
    rw [hstep, List.filter_cons]
    by_cases hrd : r.weekday = d
    · simp only [hrd, decide_True, if_pos rfl, List.length_cons]
      simp
      omega
    · simp [hrd]

theorem weekdayFold_dates (data : List NRow)
    (init : (String → Nat) × (String → List String)) (d : String) (hd : d ∈ weekdayNames) :
    (List.foldl weekdayStep init data).2 d =
      ((data.filter (fun r => r.weekday = d)).map (fun r => r.date)).foldl setAdd (init.2 d) := by
  induction data generalizing init with
  | nil => simp
  | cons r rest ih =>
    rw [List.foldl_cons, ih]
    have hstep : (weekdayStep init r).2 d =
        if r.weekday = d then setAdd (init.2 d) r.date else init.2 d := by
      simp only [weekdayStep]
      by_cases hm : r.weekday ∈ weekdayNames
      · rw [if_pos hm]
        by_cases hrd : r.weekday = d
        · subst hrd
          simp
        · simp [Function.update_noteq (Ne.symm hrd), hrd]
      · rw [if_neg hm]
        have hrd : r.weekday ≠ d := fun h => hm (h ▸ hd)
        simp [hrd]
    rw [hstep, List.filter_cons]
    by_cases hrd : r.weekday = d
    · simp [hrd]
    · simp [hrd]

/-- The average the aggregator computes at lines 190-194 is exactly the
total message count per weekday divided by the number of distinct raw
date strings seen for that weekday. -/
theorem avgMessagesByWeekday_eq (data : List NRow) (d : String) (hd : d ∈ weekdayNames) :
    avgMessagesByWeekday data d =
      (if 0 < (firstDedup ((data.filter (fun r => r.weekday = d)).map (fun r => r.date))).length
       then ((data.filter (fun r => r.weekday = d)).length : ℚ) /
         ((firstDedup ((data.filter (fun r => r.weekday = d)).map (fun r => r.date))).length : ℚ)
       else 0) := by
  have hc := weekdayFold_count data (fun _ => 0, fun _ => []) d hd
  have hs := weekdayFold_dates data (fun _ => 0, fun _ => []) d hd
  simp only [avgMessagesByWeekday, weekdayFold] at *
  rw [hc, hs]
  simp [firstDedup]

/-! Sum partition helpers (for the per-sender totals) -/

theorem sum_map_add (l : List α) (f g : α → Nat) :
    (l.map (fun x => f x + g x)).sum = (l.map f).sum + (l.map g).sum := by
  induction l with
  | nil => rfl
  | cons a l ih =>
    simp only [List.map_cons, List.sum_cons, ih]
    omega

theorem sum_indicator_zero (sl : List String) (x : String) (hx : x ∉ sl) :
    (sl.map (fun s => if x = s then 1 else 0)).sum = 0 := by
  induction sl with
  | nil => rfl
  | cons a sl ih =>
    have hxa : x ≠ a := fun h => hx (h ▸ List.mem_cons_self _ _)
    have hx' : x ∉ sl := fun h => hx (List.mem_cons_of_mem _ h)
    simp [hxa, ih hx']

theorem sum_indicator_one (sl : List String) (x : String) (hnd : sl.Nodup) (hx : x ∈ sl) :
    (sl.map (fun s => if x = s then 1 else 0)).sum = 1 := by
  induction sl with
  | nil => cases hx
  | cons a sl ih =>
    rw [List.nodup_cons] at hnd
    obtain ⟨ha, hnd'⟩ := hnd
    rcases List.mem_cons.mp hx with rfl | hx'
    · simp [sum_indicator_zero sl x ha]
    · have hxa : x ≠ a := fun h => ha (h ▸ hx')
      simp [hxa, ih hnd' hx']

theorem length_eq_sum_filter (data : List NRow) (sl : List String) (hnd : sl.Nodup)
    (hcov : ∀ r ∈ data, r.sender ∈ sl) :
    (sl.map (fun s => (data.filter (fun r => r.sender = s)).length)).sum = data.length := by
  induction data with
  | nil => simp
  | cons r rest ih =>
    have hfn : (fun s => (List.filter (fun r' => decide (r'.sender = s)) (r :: rest)).length) =
        (fun s => (List.filter (fun r' => decide (r'.sender = s)) rest).length +
          (if r.sender = s then 1 else 0)) := by
      funext s
      rw [List.filter_cons]
      by_cases h : r.sender = s
      · simp [h]
      · simp [h]
    rw [show (r :: rest).length = rest.length + 1 from rfl]
    calc (sl.map (fun s => (List.filter (fun r' => decide (r'.sender = s)) (r :: rest)).length)).sum
        = (sl.map (fun s => (List.filter (fun r' => decide (r'.sender = s)) rest).length +
            (if r.sender = s then 1 else 0))).sum := by rw [hfn]
      _ = (sl.map (fun s => (List.filter (fun r' => decide (r'.sender = s)) rest).length)).sum +
            (sl.map (fun s => if r.sender = s then 1 else 0)).sum := sum_map_add ..
      _ = rest.length + 1 := by
            rw [ih (fun r' hr' => hcov r' (List.mem_cons_of_mem _ hr')),
              sum_indicator_one sl r.sender hnd (hcov r (List.mem_cons_self _ _))]

/-! Bucket characterization for the daily timeline -/

theorem messagesByDate_eq_foldl (data : List NRow) :
    messagesByDate data = (data.map (fun r => r.date)).foldl bumpAssoc [] := by
  rw [messagesByDate, List.foldl_map]

theorem lookupCount_messagesByDate (data : List NRow) (d : String) :
    lookupCount (messagesByDate data) d = (data.filter (fun r => r.date = d)).length := by
  rw [messagesByDate_eq_foldl, lookupCount_foldl_bump]
  simp only [lookupCount, Nat.zero_add]
  rw [List.countP_map, List.countP_eq_length_filter]
  rfl

theorem nodup_keysOf_messagesByDate (data : List NRow) :
    (keysOf (messagesByDate data)).Nodup := by
  rw [messagesByDate_eq_foldl]
  exact nodup_keysOf_foldl_bump _ _ (by simp [keysOf])

theorem mem_messagesByDate (data : List NRow) (d : String) (c : Nat) :
    (d, c) ∈ messagesByDate data ↔
      d ∈ data.map (fun r => r.date) ∧ c = (data.filter (fun r => r.date = d)).length := by
  constructor
  · intro hm
    have hkey : d ∈ keysOf (messagesByDate data) := by
      exact List.mem_map_of_mem Prod.fst hm
    have hd : d ∈ data.map (fun r => r.date) := by
      rw [messagesByDate_eq_foldl] at hkey
      rcases (mem_keysOf_foldl_bump _ _ _).mp hkey with h | h
      · simp [keysOf] at h
      · exact h
    refine ⟨hd, ?_⟩
    rw [← lookupCount_messagesByDate]
    exact (lookupCount_of_mem (nodup_keysOf_messagesByDate data) hm).symm
  · rintro ⟨hd, rfl⟩
    have hkey : d ∈ keysOf (messagesByDate data) := by
      rw [messagesByDate_eq_foldl]
      exact (mem_keysOf_foldl_bump _ _ _).mpr (Or.inr hd)
    obtain ⟨e, he, heq⟩ := List.mem_map.mp hkey
    obtain ⟨e1, e2⟩ := e
    simp only at heq
    subst heq
    have h2 := lookupCount_of_mem (nodup_keysOf_messagesByDate data) he
    rw [lookupCount_messagesByDate] at h2
    rw [h2]
    exact he

/-! Key provenance for the phrase table -/

theorem nodup_keysOf_foldl_phraseStep (data : List NRow) (acc : List (String × Nat))
    (h : (keysOf acc).Nodup) : (keysOf (List.foldl phraseStep acc data)).Nodup := by
  induction data generalizing acc with
  | nil => exact h
  | cons r rest ih =>
    refine ih _ ?_
    simp only [phraseStep]
    split
    · exact h
    · exact nodup_keysOf_foldl_bump _ _ (nodup_keysOf_foldl_bump _ _ h)

theorem nodup_keysOf_phraseCounts (data : List NRow) :
    (keysOf (phraseCounts data)).Nodup :=
  nodup_keysOf_foldl_phraseStep data [] (by simp [keysOf])

theorem mem_keysOf_foldl_phraseStep (data : List NRow) (acc : List (String × Nat))
    (k : String) (h : k ∈ keysOf (List.foldl phraseStep acc data)) :
    k ∈ keysOf acc ∨
      ∃ r ∈ data, k ∈ windows2 (tokensOf r.message 1) ∨ k ∈ windows3 (tokensOf r.message 1) := by
  induction data generalizing acc with
  | nil => exact Or.inl h
  | cons r rest ih =>
    rcases ih (phraseStep acc r) h with hacc | ⟨r', hr', hw⟩
    · simp only [phraseStep] at hacc
      split at hacc
      · exact Or.inl hacc
      · rcases (mem_keysOf_foldl_bump _ _ _).mp hacc with h3 | h3
        · rcases (mem_keysOf_foldl_bump _ _ _).mp h3 with h2 | h2
          · exact Or.inl h2
          · exact Or.inr ⟨r, List.mem_cons_self _ _, Or.inl h2⟩
        · exact Or.inr ⟨r, List.mem_cons_self _ _, Or.inr h3⟩
    · exact Or.inr ⟨r', List.mem_cons_of_mem _ hr', hw⟩

/-! ### Concrete data used by the witnesses and counterexamples -/

/-- A header line containing exactly the required columns. -/
def demoHeaders : List String := requiredColumns

/-- Two rows with distinct timestamps, given out of order. -/
def demoRows1 : List Row :=
  [⟨("2/1/2023"), ("10:00"), ("10"), ("Monday"), ("Bob"), ("hi")⟩,
   ⟨("1/1/2023"), ("09:00"), ("9"), ("Sunday"), ("Alice"), ("yo")⟩]

/-- The two-message dataset of the word/phrase claim. -/
def demo9 : List NRow :=
  (([⟨("1/1/2023"), ("10:00"), ("10"), ("Sunday"), ("Alice"), ("a bb ccc")⟩,
     ⟨("1/1/2023"), ("10:05"), ("10"), ("Sunday"), ("Bob"), ("a bb ccc")⟩] : List Row)).map
    (addTimestamp 0)

/-- Four Sunday messages over three distinct dates (average 4/3). -/
def demo7 : List NRow :=
  (([⟨("1/1/2023"), ("10:00"), ("10"), ("Sunday"), ("A"), ("x")⟩,
     ⟨("8/1/2023"), ("10:00"), ("10"), ("Sunday"), ("A"), ("x")⟩,
     ⟨("15/1/2023"), ("10:00"), ("10"), ("Sunday"), ("A"), ("x")⟩,
     ⟨("1/1/2023"), ("11:00"), ("11"), ("Sunday"), ("A"), ("x")⟩] : List Row)).map
    (addTimestamp 0)

/-- One row whose raw date has three non-numeric components. -/
def demo8 : List NRow :=
  (([⟨("a/b/c"), ("10:00"), ("10"), ("Sunday"), ("A"), ("x")⟩] : List Row)).map
    (addTimestamp 0)

/-- A pre-upload application state. -/
def demoState : AppState :=
  { chatData := [], stats := none, error := (""), fileUploaded := false,
    activeTab := ("upload") }

/-- Whether `dateStr` splits on its separator into exactly three
components (the condition of lines 100-108). -/
def splitsThree (s : String) : Bool :=
  match dateSplit s with
  | some ps => decide (ps.length = 3)
  | none => false

/-! ### Claim C1 -/

/-- Claim C1: for every valid input table with all seven required columns
(header complete, every resolved timestamp a valid date), the
parse-and-sort step of handleFileUpload succeeds and returns a sequence
sorted non-decreasing by the resolved timestamp, of length equal to the
number of (non-empty, per `skipEmptyLines`) input rows, and the sort is
stable: rows with any fixed timestamp keep their original relative
order. -/
theorem c1_normalize_sorted_stable (headers : List String) (rows : List Row) (nowMs : Int)
    (hcols : missingColumns headers = [])
    (hvalid : ∀ r ∈ rows.map (addTimestamp nowMs), r.datetime.isSome = true) :
    ∃ out, normalize headers rows nowMs = Except.ok out ∧
      out.length = rows.length ∧
      List.Pairwise (fun a b => tsLE a b = true) out ∧
      ∀ k : Int, out.filter (fun r => r.datetime = some k) =
        (rows.map (addTimestamp nowMs)).filter (fun r => r.datetime = some k) := by
  refine ⟨sortStable tsLE (rows.map (addTimestamp nowMs)), ?_, ?_, ?_, ?_⟩
  · simp [normalize, hcols]
  · rw [length_sortStable, List.length_map]
  · refine pairwise_sortStable tsLE _ ?_ ?_
    · intro a ha b hb
      obtain ⟨x, hx⟩ := Option.isSome_iff_exists.mp (hvalid a ha)
      obtain ⟨y, hy⟩ := Option.isSome_iff_exists.mp (hvalid b hb)
      simp only [tsLE, jsLE, hx, hy, decide_eq_true_eq]
      exact le_total x y
    · intro a ha b hb c hc hab hbc
      obtain ⟨x, hx⟩ := Option.isSome_iff_exists.mp (hvalid a ha)
      obtain ⟨y, hy⟩ := Option.isSome_iff_exists.mp (hvalid b hb)
      obtain ⟨z, hz⟩ := Option.isSome_iff_exists.mp (hvalid c hc)
      simp only [tsLE, jsLE, hx, hy, hz, decide_eq_true_eq] at hab hbc ⊢
      omega
  · intro k
    refine filter_sortStable tsLE _ _ ?_
    intro a ha b hb hpa hpb
    simp only [decide_eq_true_eq] at hpa hpb
    simp [tsLE, jsLE, hpa, hpb]

/-- Witness for C1 at a concrete table. -/
theorem c1_witness :
    missingColumns demoHeaders = [] ∧
    (∀ r ∈ demoRows1.map (addTimestamp 0), r.datetime.isSome = true) ∧
    ∃ out, normalize demoHeaders demoRows1 0 = Except.ok out ∧
      out.length = demoRows1.length ∧
      List.Pairwise (fun a b => tsLE a b = true) out ∧
      ∀ k : Int, out.filter (fun r => r.datetime = some k) =
        (demoRows1.map (addTimestamp 0)).filter (fun r => r.datetime = some k) :=
  ⟨by decide, by decide,
    c1_normalize_sorted_stable demoHeaders demoRows1 0 (by decide) (by decide)⟩

/-! ### Claim C2 -/

/-- Claim C2: for every input table whose header lacks at least one of
the seven required columns, normalization fails with an error naming
exactly the set of missing columns, and no rows are ingested: the
dataset, stats bundle and upload flag are left unchanged. -/
theorem c2_missing_columns (headers : List String) (rows : List Row) (nowMs : Int)
    (s : AppState) (hmiss : missingColumns headers ≠ []) :
    normalize headers rows nowMs = Except.error (missingColumns headers) ∧
    (∀ c, c ∈ missingColumns headers ↔ c ∈ requiredColumns ∧ c ∉ headers) ∧
    (uploadComplete headers rows nowMs s).chatData = s.chatData ∧
    (uploadComplete headers rows nowMs s).stats = s.stats ∧
    (uploadComplete headers rows nowMs s).fileUploaded = s.fileUploaded := by
  have hlen : 0 < (missingColumns headers).length := List.length_pos.mpr hmiss
  have hn : normalize headers rows nowMs = Except.error (missingColumns headers) := by
    simp only [normalize]
    rw [if_pos hlen]
  refine ⟨hn, ?_, ?_, ?_, ?_⟩
  · intro c
    simp [missingColumns, List.mem_filter]
  · simp [uploadComplete, hn]
  · simp [uploadComplete, hn]
  · simp [uploadComplete, hn]

/-- Witness for C2: a header missing every column but `date`. -/
theorem c2_witness :
    missingColumns [("date")] ≠ [] ∧
    (normalize [("date")] demoRows1 0 = Except.error (missingColumns [("date")]) ∧
      (∀ c, c ∈ missingColumns [("date")] ↔ c ∈ requiredColumns ∧ c ∉ [("date")]) ∧
      (uploadComplete [("date")] demoRows1 0 demoState).chatData = demoState.chatData ∧
      (uploadComplete [("date")] demoRows1 0 demoState).stats = demoState.stats ∧
      (uploadComplete [("date")] demoRows1 0 demoState).fileUploaded = demoState.fileUploaded) :=
  ⟨by decide, c2_missing_columns [("date")] demoRows1 0 demoState (by decide)⟩

/-! ### Claim C3 -/

/-- Claim C3 counterexample: the claim says every dateStr that does not
split into three components—including the empty string—makes the
resolver return the current wall-clock time.  On the empty string the
code instead returns `null` (line 96), which `new Date(null)` turns into
the epoch, not the current time. -/
theorem c3_counterexample :
    resolveTimestamp ("") ("") 1000000 = some 0 ∧
    resolveTimestamp ("") ("") 1000000 ≠ some 1000000 := by
  decide

/-- Claim C3 as amended: for every dateStr that does not split on `/` or
`-` into exactly three components, the resolved timestamp is the epoch
when dateStr is empty (parseDate returns `null`, coerced to 0 by
`new Date(null)`) and the current wall-clock time otherwise; in both
cases a timestamp is produced, never a missing one. -/
theorem c3_fallback (dateStr timeStr : String) (nowMs : Int)
    (h : splitsThree dateStr = false) :
    resolveTimestamp dateStr timeStr nowMs =
      (if dateStr = "" then some 0 else some nowMs) := by
  by_cases hempty : dateStr = ""
  · simp [resolveTimestamp, parseDate, hempty]
  · rw [if_neg hempty]
    simp only [resolveTimestamp, parseDate, if_neg hempty]
    cases hds : dateSplit dateStr with
    | none => rfl
    | some ps =>
      simp only [splitsThree, hds, decide_eq_false_iff_not] at h
      simp [h]

/-- Witness for C3 at concrete inputs: a two-component date and the
empty date. -/
theorem c3_witness :
    splitsThree ("1/2") = false ∧
    resolveTimestamp ("1/2") ("") 5 = (if ("1/2" : String) = "" then some 0 else some 5) ∧
    resolveTimestamp ("") ("") 5 = (if ("" : String) = "" then some 0 else some 5) :=
  ⟨by decide, c3_fallback ("1/2") ("") 5 (by decide), c3_fallback ("") ("") 5 (by decide)⟩

/-! ### Claim C4 -/

/-- Claim C4 counterexample: the claim says a two-digit year is
normalized by adding 2000 regardless of the day/month disambiguation
branch.  For "20/1/23" the first component exceeds 12, the code takes
the first branch (lines 115-119), and the year stays 23 (which
`new Date` then reads as 1923), not 2023. -/
theorem c4_counterexample :
    (resolveDMY (splitOnChar '/' ("20/1/23"))).2.2 = some 23 ∧
    (resolveDMY (splitOnChar '/' ("20/1/23"))).2.2 ≠ some 2023 := by
  decide

/-- Claim C4 as amended: the +2000 normalization of a two-digit year is
applied only in the branch where the first component is not greater
than 12 (or is NaN); in the first-component-greater-than-12 branch the
parsed year is kept as is.  `resolve("1/1/23", "")` does yield year
2023 with hour 0 and minute 0. -/
theorem c4_two_digit_year :
    (∀ ps a, parseIntJS (ps.getD 0 ("")) = some a → 12 < a →
      (resolveDMY ps).2.2 = parseIntJS (ps.getD 2 (""))) ∧
    (∀ ps a, parseIntJS (ps.getD 0 ("")) = some a → a ≤ 12 →
      (resolveDMY ps).2.2 =
        (if jsLTn (parseIntJS (ps.getD 2 (""))) 100
         then jsAddI (parseIntJS (ps.getD 2 (""))) 2000
         else parseIntJS (ps.getD 2 ("")))) ∧
    resolveDMY (splitOnChar '/' ("1/1/23")) = (some 1, some 0, some 2023) ∧
    parseTimeParts ("") = (some 0, some 0) := by
  refine ⟨?_, ?_, by decide, by decide⟩
  · intro ps a ha hgt
    have hb : jsGTn (parseIntJS (ps.getD 0 (""))) 12 = true := by
      rw [ha]
      simp [jsGTn, hgt]
    simp only [resolveDMY]
    rw [if_pos hb]
  · intro ps a ha hle
    have hb : jsGTn (parseIntJS (ps.getD 0 (""))) 12 = false := by
      rw [ha]
      simp [jsGTn, not_lt.mpr hle]
    simp only [resolveDMY]
    rw [if_neg (by rw [hb]; simp)]

/-- Witness for C4: both branches at concrete component lists. -/
theorem c4_witness :
    (resolveDMY [("20"), ("1"), ("23")]).2.2 = parseIntJS ((([("20"), ("1"), ("23")] : List String)).getD 2 ("")) ∧
    (resolveDMY [("1"), ("1"), ("23")]).2.2 =
      (if jsLTn (parseIntJS ((([("1"), ("1"), ("23")] : List String)).getD 2 (""))) 100
       then jsAddI (parseIntJS ((([("1"), ("1"), ("23")] : List String)).getD 2 (""))) 2000
       else parseIntJS ((([("1"), ("1"), ("23")] : List String)).getD 2 (""))) :=
  ⟨c4_two_digit_year.1 [("20"), ("1"), ("23")] 20 (by decide) (by decide),
   c4_two_digit_year.2.1 [("1"), ("1"), ("23")] 1 (by decide) (by decide)⟩

/-! ### Claim C5 -/

/-- Claim C5 counterexample: the claim says a malformed timeStr with
non-numeric components yields hour 0 and minute 0.  For "ab:cd" the
split has two components, so the code takes `parseInt` of both (lines
136-139) and gets NaN, not 0. -/
theorem c5_counterexample :
    parseTimeParts ("ab:cd") = (none, none) ∧
    parseTimeParts ("ab:cd") ≠ (some 0, some 0) := by
  decide

/-- Claim C5 as amended: timeStr is split on `:`; an empty timeStr or
one with fewer than two components yields hour 0 and minute 0; with at
least two components the hour and minute are `parseInt` of the first
two components—NaN, not 0, when they are non-numeric—and any further
components (seconds) are ignored. -/
theorem c5_time_parsing (timeStr : String) :
    (timeStr = "" ∨ (splitOnChar ':' timeStr).length < 2 →
      parseTimeParts timeStr = (some 0, some 0)) ∧
    (∀ p0 p1 rest, timeStr ≠ "" → splitOnChar ':' timeStr = p0 :: p1 :: rest →
      parseTimeParts timeStr = (parseIntJS p0, parseIntJS p1)) := by
  constructor
  · rintro (h | h)
    · simp [parseTimeParts, h]
    · simp only [parseTimeParts]
      by_cases he : timeStr = ""
      · simp [he]
      · rw [if_neg he, if_neg (by omega)]
  · intro p0 p1 rest hne hsp
    simp only [parseTimeParts, if_neg hne, hsp]
    rw [if_pos (by simp)]
    simp

/-- Witness for C5: a time with seconds, a malformed time, and a
one-component time. -/
theorem c5_witness :
    parseTimeParts ("14:30:22") = (parseIntJS ("14"), parseIntJS ("30")) ∧
    parseTimeParts ("ab:cd") = (parseIntJS ("ab"), parseIntJS ("cd")) ∧
    parseTimeParts ("5") = (some 0, some 0) :=
  ⟨(c5_time_parsing ("14:30:22")).2 ("14") ("30") [("22")] (by decide) (by decide),
   (c5_time_parsing ("ab:cd")).2 ("ab") ("cd") [] (by decide) (by decide),
   (c5_time_parsing ("5")).1 (Or.inr (by decide))⟩

/-! ### Claim C6 -/

/-- Claim C6 counterexample: the claim says aggregation of an empty row
sequence returns an empty/zeroed bundle.  The guard of line 147 returns
early instead, so no bundle at all is produced. -/
theorem c6_counterexample : calculateStats [] = none := by
  rfl

/-- Claim C6 as amended: on an empty row sequence `calculateStats`
returns early without producing a bundle; after an upload of an empty
(but well-formed) table the previous stats value is left in place while
the dataset itself is replaced by the empty one. -/
theorem c6_empty_input :
    calculateStats [] = none ∧
    ∀ (headers : List String) (nowMs : Int) (s : AppState),
      missingColumns headers = [] →
      (uploadComplete headers [] nowMs s).stats = s.stats ∧
      (uploadComplete headers [] nowMs s).chatData = [] := by
  refine ⟨rfl, ?_⟩
  intro headers nowMs s h
  have hn : normalize headers [] nowMs = Except.ok [] := by
    simp [normalize, h, sortStable]
  constructor
  · simp [uploadComplete, hn, calculateStats]
  · simp [uploadComplete, hn]

/-- Witness for C6 at a complete header and the pre-upload state. -/
theorem c6_witness :
    (uploadComplete demoHeaders [] 0 demoState).stats = demoState.stats ∧
    (uploadComplete demoHeaders [] 0 demoState).chatData = [] :=
  c6_empty_input.2 demoHeaders 0 demoState (by decide)

/-! ### Claim C7 -/

/-- Claim C7 counterexample: the claim says the weekday average produced
by the aggregator equals total messages divided by distinct dates.  The
internal average for the four-Sunday dataset is exactly 4/3, but the
value shipped in `weekdayData` is `parseFloat(avg.toFixed(1))` (line
318), i.e. 13/10, which differs from 4/3. -/
theorem c7_counterexample :
    avgMessagesByWeekday demo7 ("Sunday") = 4 / 3 ∧
    (("Sunday"), (13 : ℚ) / 10) ∈ weekdayDataOf demo7 ∧
    ((13 : ℚ) / 10) ≠ 4 / 3 := by
  have h1 : (weekdayFold demo7).1 ("Sunday") = 4 := by decide
  have h2 : ((weekdayFold demo7).2 ("Sunday")).length = 3 := by decide
  have havg : avgMessagesByWeekday demo7 ("Sunday") = 4 / 3 := by
    simp only [avgMessagesByWeekday, h1, h2]
    norm_num
  have hfl : ⌊(83 : ℚ) / 6⌋ = 13 := by
    rw [Int.floor_eq_iff]
    constructor <;> norm_num
  have hround : roundTo1 (avgMessagesByWeekday demo7 ("Sunday")) = 13 / 10 := by
    rw [havg]
    simp only [roundTo1]
    rw [show ((4 : ℚ) / 3 * 10 + 1 / 2) = 83 / 6 by norm_num, hfl]
    norm_num
  refine ⟨havg, ?_, by norm_num⟩
  refine List.mem_map.mpr ⟨("Sunday"), by decide, ?_⟩
  rw [hround]

/-- Claim C7 as amended: the average computed at lines 190-194 equals,
for each of the seven weekday names, the total number of messages whose
supplied weekday field is that name divided by the number of distinct
raw date strings observed for that weekday when that number is positive
and 0 otherwise (rows with unrecognized weekday strings are excluded by
the filter); the `weekdayData` records of the bundle carry this average
rounded to one decimal digit. -/
theorem c7_weekday_average (data : List NRow) (d : String) (hd : d ∈ weekdayNames) :
    avgMessagesByWeekday data d =
      (if 0 < (firstDedup ((data.filter (fun r => r.weekday = d)).map (fun r => r.date))).length
       then ((data.filter (fun r => r.weekday = d)).length : ℚ) /
         ((firstDedup ((data.filter (fun r => r.weekday = d)).map (fun r => r.date))).length : ℚ)
       else 0) ∧
    (firstDedup ((data.filter (fun r => r.weekday = d)).map (fun r => r.date))).Nodup ∧
    (∀ x, x ∈ firstDedup ((data.filter (fun r => r.weekday = d)).map (fun r => r.date)) ↔
      x ∈ (data.filter (fun r => r.weekday = d)).map (fun r => r.date)) ∧
    (d, roundTo1 (avgMessagesByWeekday data d)) ∈ weekdayDataOf data ∧
    (∀ b, calculateStats data = some b → b.weekdayData = weekdayDataOf data) := by
  refine ⟨avgMessagesByWeekday_eq data d hd, nodup_firstDedup _,
    fun x => mem_firstDedup _ x, ?_, ?_⟩
  · exact List.mem_map.mpr ⟨d, hd, rfl⟩
  · intro b hb
    simp only [calculateStats] at hb
    split at hb
    · exact Option.noConfusion hb
    · injection hb with h
      rw [← h]

/-- Witness for C7 at the four-Sunday dataset. -/
theorem c7_witness :
    (avgMessagesByWeekday demo7 ("Sunday") =
      (if 0 < (firstDedup ((demo7.filter (fun r => r.weekday = "Sunday")).map (fun r => r.date))).length
       then ((demo7.filter (fun r => r.weekday = "Sunday")).length : ℚ) /
         ((firstDedup ((demo7.filter (fun r => r.weekday = "Sunday")).map (fun r => r.date))).length : ℚ)
       else 0)) ∧
    (("Sunday"), roundTo1 (avgMessagesByWeekday demo7 ("Sunday"))) ∈ weekdayDataOf demo7 :=
  ⟨(c7_weekday_average demo7 ("Sunday") (by decide)).1,
   (c7_weekday_average demo7 ("Sunday") (by decide)).2.2.2.1⟩

/-! ### Claim C8 -/

/-- Claim C8 counterexample: the claim says unparsable date strings sort
to the epoch.  A date key with three non-numeric components re-parses to
`new Date(NaN, NaN, NaN)`—an Invalid Date, not the epoch; only keys that
do not split into exactly three parts get `new Date(0)` (line 243). -/
theorem c8_counterexample :
    dailyTimelineDataOf demo8 = [⟨("a/b/c"), 1, none⟩] ∧
    dailySortKey ("a/b/c") = none ∧
    (none : JSNum) ≠ some 0 := by
  decide

/-- Claim C8 as amended: the daily timeline never has more than 30
entries; its buckets are keyed by the raw date string with the row count
for that date; and when every re-parsed sort key is a valid date (a key
that does not split into three parts re-parses to the epoch, but one
with three non-numeric components is an Invalid Date, making the sort
order unspecified), the timeline is the chronologically sorted bucket
list truncated to the last 30, every dropped bucket sorting no later
than every kept one. -/
theorem c8_daily_timeline (data : List NRow) :
    (dailyTimelineDataOf data).length ≤ 30 ∧
    (∀ d c, (d, c) ∈ messagesByDate data ↔
      d ∈ data.map (fun r => r.date) ∧ c = (data.filter (fun r => r.date = d)).length) ∧
    ((∀ e ∈ dailyEntries data, e.sortDate.isSome = true) →
      List.Pairwise (fun a b => dailyLE a b = true) (dailyTimelineDataOf data) ∧
      ∀ x ∈ (sortStable dailyLE (dailyEntries data)).take
          ((sortStable dailyLE (dailyEntries data)).length - 30),
        ∀ y ∈ dailyTimelineDataOf data, dailyLE x y = true) := by
  refine ⟨?_, mem_messagesByDate data, ?_⟩
  · simp only [dailyTimelineDataOf, jsTakeLast]
    rw [List.length_drop]
    omega
  · intro hvalid
    have hsorted : List.Pairwise (fun a b => dailyLE a b = true)
        (sortStable dailyLE (dailyEntries data)) := by
      refine pairwise_sortStable dailyLE _ ?_ ?_
      · intro a ha b hb
        obtain ⟨x, hx⟩ := Option.isSome_iff_exists.mp (hvalid a ha)
        obtain ⟨y, hy⟩ := Option.isSome_iff_exists.mp (hvalid b hb)
        simp only [dailyLE, jsLE, hx, hy, decide_eq_true_eq]
        exact le_total x y
      · intro a ha b hb c hc hab hbc
        obtain ⟨x, hx⟩ := Option.isSome_iff_exists.mp (hvalid a ha)
        obtain ⟨y, hy⟩ := Option.isSome_iff_exists.mp (hvalid b hb)
        obtain ⟨z, hz⟩ := Option.isSome_iff_exists.mp (hvalid c hc)
        simp only [dailyLE, jsLE, hx, hy, hz, decide_eq_true_eq] at hab hbc ⊢
        omega
    constructor
    · exact List.Pairwise.sublist (List.drop_sublist _ _) hsorted
    · intro x hx y hy
      have hsplit := List.take_append_drop
        ((sortStable dailyLE (dailyEntries data)).length - 30)
        (sortStable dailyLE (dailyEntries data))
      rw [← hsplit, List.pairwise_append] at hsorted
      exact hsorted.2.2 x hx y hy

/-- Witness for C8 at a dataset with three valid date buckets. -/
theorem c8_witness :
    (dailyTimelineDataOf demo7).length ≤ 30 ∧
    List.Pairwise (fun a b => dailyLE a b = true) (dailyTimelineDataOf demo7) :=
  ⟨(c8_daily_timeline demo7).1, ((c8_daily_timeline demo7).2.2 (by decide)).1⟩

/-! ### Claim C9 -/

/-- Claim C9: on the two messages "a bb ccc", the word "ccc" counts 2
and the phrase "bb ccc" counts 2, and that phrase (count below 3) is
excluded from topPhrases; in general an entry of topPhrases has count at
least 3 and is a real phrase-table entry, a phrase counted fewer than 3
times never appears, every counted phrase is a 2- or 3-token window of a
single message's token list (windows never cross message boundaries),
and topWords and topPhrases keep at most 30 entries sorted descending by
count. -/
theorem c9_word_phrase_frequency :
    lookupCount (wordCounts demo9) ("ccc") = 2 ∧
    lookupCount (phraseCounts demo9) ("bb ccc") = 2 ∧
    topPhrasesOf demo9 = [] ∧
    (∀ data : List NRow, ∀ e ∈ topPhrasesOf data, 3 ≤ e.2 ∧ e ∈ phraseCounts data) ∧
    (∀ (data : List NRow) (p : String), lookupCount (phraseCounts data) p < 3 →
      ∀ c, (p, c) ∉ topPhrasesOf data) ∧
    (∀ (data : List NRow) (p : String), 0 < lookupCount (phraseCounts data) p →
      ∃ r ∈ data, p ∈ windows2 (tokensOf r.message 1) ∨ p ∈ windows3 (tokensOf r.message 1)) ∧
    (∀ data : List NRow, (topWordsOf data).length ≤ 30 ∧ (topPhrasesOf data).length ≤ 30 ∧
      List.Pairwise (fun a b => countDescLE a b = true) (topWordsOf data) ∧
      List.Pairwise (fun a b => countDescLE a b = true) (topPhrasesOf data)) := by
  have htot : ∀ (a : String × Nat) (b : String × Nat),
      countDescLE a b = true ∨ countDescLE b a = true := by
    intro a b
    simp only [countDescLE, decide_eq_true_eq]
    omega
  have htr : ∀ (a b c : String × Nat),
      countDescLE a b = true → countDescLE b c = true → countDescLE a c = true := by
    intro a b c
    simp only [countDescLE, decide_eq_true_eq]
    omega
  refine ⟨by decide, by decide, by decide, ?_, ?_, ?_, ?_⟩
  · intro data e he
    have h1 : e ∈ sortStable countDescLE ((phraseCounts data).filter (fun e => e.2 ≥ 3)) :=
      List.mem_of_mem_take he
    have h3 := List.mem_filter.mp (mem_of_mem_sortStable h1)
    exact ⟨by simpa using h3.2, h3.1⟩
  · intro data p hlt c hmem
    have h1 : (p, c) ∈ sortStable countDescLE ((phraseCounts data).filter (fun e => e.2 ≥ 3)) :=
      List.mem_of_mem_take hmem
    have h3 := List.mem_filter.mp (mem_of_mem_sortStable h1)
    have hge : 3 ≤ c := by simpa using h3.2
    have hlk := lookupCount_of_mem (nodup_keysOf_phraseCounts data) h3.1
    omega
  · intro data p hpos
    obtain ⟨v, hv, hveq⟩ := exists_mem_of_lookupCount_pos hpos
    have hkey : p ∈ keysOf (phraseCounts data) := List.mem_map_of_mem Prod.fst hv
    rcases mem_keysOf_foldl_phraseStep data [] p hkey with h | h
    · simp [keysOf] at h
    · exact h
  · intro data
    refine ⟨?_, ?_, ?_, ?_⟩
    · rw [topWordsOf, List.length_take]
      exact Nat.min_le_left _ _
    · rw [topPhrasesOf, List.length_take]
      exact Nat.min_le_left _ _
    · exact List.Pairwise.sublist (List.take_sublist _ _)
        (pairwise_sortStable countDescLE _ (fun a _ b _ => htot a b)
          (fun a _ b _ c _ => htr a b c))
    · exact List.Pairwise.sublist (List.take_sublist _ _)
        (pairwise_sortStable countDescLE _ (fun a _ b _ => htot a b)
          (fun a _ b _ c _ => htr a b c))

/-- Witness for C9: the exclusion component applied at the concrete
dataset and phrase. -/
theorem c9_witness :
    lookupCount (wordCounts demo9) ("ccc") = 2 ∧
    (("bb ccc"), 2) ∉ topPhrasesOf demo9 :=
  ⟨c9_word_phrase_frequency.1,
   c9_word_phrase_frequency.2.2.2.2.1 demo9 ("bb ccc") (by decide) 2⟩

/-! ### Claim C10 -/

/-- Claim C10: for every non-empty input sequence a stats bundle is
produced, its per-sender records partition the rows: the sender names
are exactly the distinct senders occurring in the data, each exactly
once, and the per-sender message counts sum to the total number of
rows. -/
theorem c10_sender_partition (data : List NRow) (hne : data ≠ []) :
    (∃ b, calculateStats data = some b ∧ b.senderData = senderDataOf data) ∧
    ((senderDataOf data).map (fun e => e.1)).Nodup ∧
    (∀ s, s ∈ (senderDataOf data).map (fun e => e.1) ↔ s ∈ data.map (fun r => r.sender)) ∧
    ((senderDataOf data).map (fun e => e.2.1)).sum = data.length := by
  have hnames : (senderDataOf data).map (fun e => e.1) = uniqueSenders data := by
    have hcomp : ((fun e : String × Nat × Nat => e.1) ∘
        fun s => (s, messageCountBySender data s, wordCountBySender data s)) = id := by
      funext s
      rfl
    rw [senderDataOf, List.map_map, hcomp, List.map_id]
  have hemp : data.isEmpty = false := by
    cases data with
    | nil => exact absurd rfl hne
    | cons a l => rfl
  refine ⟨?_, ?_, ?_, ?_⟩
  · exact ⟨{ timelineData := timelineDataOf data
             dailyTimelineData := dailyTimelineDataOf data
             weekdayData := weekdayDataOf data
             hourData := hourDataOf data
             senderData := senderDataOf data
             topWords := topWordsOf data
             topPhrases := topPhrasesOf data
             mostActiveDay := mostActiveDayOf data },
          by simp [calculateStats, hemp], rfl⟩
  · rw [hnames]
    exact nodup_firstDedup _
  · intro s
    rw [hnames]
    exact mem_firstDedup _ s
  · have hmapmap : (senderDataOf data).map (fun e => e.2.1) =
        (uniqueSenders data).map (fun s => (data.filter (fun r => r.sender = s)).length) := by
      simp [senderDataOf, List.map_map, Function.comp, messageCountBySender]
    rw [hmapmap]
    exact length_eq_sum_filter data (uniqueSenders data) (nodup_firstDedup _)
      (fun r hr => (mem_firstDedup _ _).mpr (List.mem_map_of_mem _ hr))

/-- Witness for C10 at the two-sender dataset. -/
theorem c10_witness :
    (∃ b, calculateStats demo9 = some b ∧ b.senderData = senderDataOf demo9) ∧
    ((senderDataOf demo9).map (fun e => e.1)).Nodup ∧
    (∀ s, s ∈ (senderDataOf demo9).map (fun e => e.1) ↔ s ∈ demo9.map (fun r => r.sender)) ∧
    ((senderDataOf demo9).map (fun e => e.2.1)).sum = demo9.length :=
  c10_sender_partition demo9 (by decide)

end WApp
